import Mathlib

/-!
Shallow embedding of `src/manhole.py`, a small pygame arcade game in which a
player moves a manhole cover between four slots (two rows, two columns) to
protect pedestrians walking left-to-right, and proofs about one simulation
tick (spawning, movement, collision/scoring, removal, game-over) and about
the event handlers (movement, restart).

Modelling notes, all dictated by the source:
* pygame rects store integer coordinates, so a pedestrian's horizontal
  position is an `Int` (`x` is `rect.x`, the left edge); `rect.centerx` is
  `x + PEDESTRIAN_WIDTH / 2`.
* `MANHOLE_CENTERS_X = [SCREEN_WIDTH * 0.30, SCREEN_WIDTH * 0.70]` evaluates
  to the exact doubles `240.0` and `560.0`, so the centers are integral and
  embedded as `Int`; likewise the collision-zone bounds are exact.
* `random.choice([0, 1])` and `random.randint(MIN, MAX)` are modelled as
  explicit oracle inputs threaded into the step functions.
* the `scored_at_indices` Python set is modelled as a duplicate-free list;
  the insertion in the code is guarded by a membership test, so list
  consing preserves set semantics.
-/

namespace Manhole

/-- `SCREEN_WIDTH = 800`. -/
def SCREEN_WIDTH : Int := 800

/-- `PEDESTRIAN_WIDTH = 20`. -/
def PEDESTRIAN_WIDTH : Int := 20

/-- `MANHOLE_COLLISION_WIDTH = 50`. -/
def MANHOLE_COLLISION_WIDTH : Int := 50

/-- `MANHOLE_CENTERS_X = [SCREEN_WIDTH * 0.30, SCREEN_WIDTH * 0.70]`, which
evaluates exactly to `[240.0, 560.0]`. -/
def MANHOLE_CENTERS_X : List Int := [240, 560]

/-- `PEDESTRIAN_SPAWN_RATE_MIN = 200`. -/
def PEDESTRIAN_SPAWN_RATE_MIN : Nat := 200

/-- `PEDESTRIAN_SPAWN_RATE_MAX = 400`. -/
def PEDESTRIAN_SPAWN_RATE_MAX : Nat := 400

/-- One pedestrian: the dict `{'rect': Rect, 'row': 0 or 1,
'scored_at_indices': set()}`. `x` is `rect.x` (left edge); the vertical
placement is determined by `row` and plays no role in the game logic. -/
structure Pedestrian where
  x : Int
  row : Int
  scored_at_indices : List (Int × Int)
deriving DecidableEq

/-- `create_pedestrian()`: the random row choice `random.choice([0, 1])` is
made explicit as the Boolean `b` (`false` picks row 0, `true` picks row 1);
the rect starts at `x = 0 - PEDESTRIAN_WIDTH`, fully off screen left. -/
def create_pedestrian (b : Bool) : Pedestrian :=
  { x := 0 - PEDESTRIAN_WIDTH
    row := if b then 1 else 0
    scored_at_indices := [] }

/-- The global game variables mutated by the main loop. -/
structure GameState where
  score : Int
  lives : Int
  player_row_index : Int
  player_col_index : Int
  pedestrians : List Pedestrian
  game_over : Bool
  spawn_timer : Nat
  next_spawn_delay : Nat
deriving DecidableEq

/-- `reset_game()`: the fresh `random.randint(MIN, MAX)` draw for
`next_spawn_delay` is the explicit input `d`. -/
def reset_game (d : Nat) : GameState :=
  { score := 0
    lives := 3
    player_row_index := 0
    player_col_index := 0
    pedestrians := []
    game_over := false
    spawn_timer := 0
    next_spawn_delay := d }

/-- The keyboard commands consumed by the simulation (quit terminates the
host loop and is not part of the state). A restart carries the
`random.randint` draw used to reseed `next_spawn_delay`. -/
inductive Cmd where
  | moveLeft
  | moveRight
  | moveUp
  | moveDown
  | restart (d : Nat)

/-- The `KEYDOWN` handler: while running, arrow/WASD keys cycle the player
indices modulo the number of columns/rows (`len(MANHOLE_CENTERS_X) = 2`,
`len(PATH_CENTERS_Y) = 2`, and Python `%` on a positive modulus agrees with
`Int.emod`); while game over only `K_r` is accepted and calls
`reset_game`. -/
def handle_key (c : Cmd) (s : GameState) : GameState :=
  if s.game_over then
    match c with
    | .restart d => reset_game d
    | _ => s
  else
    match c with
    | .moveLeft => { s with player_col_index := (s.player_col_index - 1) % 2 }
    | .moveRight => { s with player_col_index := (s.player_col_index + 1) % 2 }
    | .moveUp => { s with player_row_index := (s.player_row_index - 1) % 2 }
    | .moveDown => { s with player_row_index := (s.player_row_index + 1) % 2 }
    | .restart _ => s

/-- Fold of `handle_key` over a sequence of key events. -/
def handle_keys (cs : List Cmd) (s : GameState) : GameState :=
  cs.foldl (fun s c => handle_key c s) s

/-- `ped_rect.x += PEDESTRIAN_SPEED` with `PEDESTRIAN_SPEED = 1.5`: pygame
rect coordinates are integers and a float assignment truncates toward zero,
so `x + 1.5` becomes `x + 1` for `x ≥ -1` and `x + 2` for `x ≤ -2`. -/
def moveX (x : Int) : Int := if -1 ≤ x then x + 1 else x + 2

/-- `enumerate` over a list, starting at index `i`. -/
def enumFrom {α : Type} (i : Int) : List α → List (Int × α)
  | [] => []
  | a :: as => (i, a) :: enumFrom (i + 1) as

/-- Outcome of the inner column loop for one pedestrian: the (possibly
credited) pedestrian, the score and lives contributions, and the
`fell_in_hole` flag. -/
structure ColsResult where
  ped : Pedestrian
  scoreDelta : Int
  livesDelta : Int
  fell_in_hole : Bool
deriving DecidableEq

/-- The inner `for current_col_index, manhole_x in enumerate(MANHOLE_CENTERS_X)`
loop: if the pedestrian's center is strictly inside a slot's collision zone,
either credit a covered pass (at most once per slot, only once the center has
reached the slot center) or fall (decrement lives, mark fallen, `break`). -/
def check_cols (player_row_index player_col_index : Int) :
    List (Int × Int) → Pedestrian → ColsResult
  | [], ped => { ped := ped, scoreDelta := 0, livesDelta := 0, fell_in_hole := false }
  | (current_col_index, manhole_x) :: rest, ped =>
      let ped_center_x := ped.x + PEDESTRIAN_WIDTH / 2
      if manhole_x - MANHOLE_COLLISION_WIDTH / 2 < ped_center_x ∧
          ped_center_x < manhole_x + MANHOLE_COLLISION_WIDTH / 2 then
        if ped.row = player_row_index ∧ current_col_index = player_col_index then
          if manhole_x ≤ ped_center_x ∧
              (ped.row, current_col_index) ∉ ped.scored_at_indices then
            let ped' := { ped with
              scored_at_indices := (ped.row, current_col_index) :: ped.scored_at_indices }
            let r := check_cols player_row_index player_col_index rest ped'
            { r with scoreDelta := r.scoreDelta + 1 }
          else
            check_cols player_row_index player_col_index rest ped
        else
          { ped := ped, scoreDelta := 0, livesDelta := -1, fell_in_hole := true }
      else
        check_cols player_row_index player_col_index rest ped

/-- Outcome of one pedestrian's iteration of the movement/collision loop,
including whether its index is appended to `pedestrians_to_remove_indices`. -/
structure StepResult where
  ped : Pedestrian
  scoreDelta : Int
  livesDelta : Int
  fell_in_hole : Bool
  remove : Bool
deriving DecidableEq

/-- One pedestrian's iteration of the main `for i, ped_data in
enumerate(pedestrians)` loop: move right, run the column checks, then award
the `+5` bonus and mark for removal if it left the screen without falling
(`ped_rect.left > SCREEN_WIDTH`). -/
def step_ped (player_row_index player_col_index : Int) (ped0 : Pedestrian) : StepResult :=
  let moved : Pedestrian := { ped0 with x := moveX ped0.x }
  let r := check_cols player_row_index player_col_index (enumFrom 0 MANHOLE_CENTERS_X) moved
  if r.fell_in_hole = false ∧ SCREEN_WIDTH < r.ped.x then
    { ped := r.ped, scoreDelta := r.scoreDelta + 5, livesDelta := r.livesDelta,
      fell_in_hole := r.fell_in_hole, remove := true }
  else
    { ped := r.ped, scoreDelta := r.scoreDelta, livesDelta := r.livesDelta,
      fell_in_hole := r.fell_in_hole, remove := r.fell_in_hole }

/-- Accumulated outcome of the whole pedestrian loop: the updated (not yet
removed) pedestrians in order, the total score and lives deltas, and
`pedestrians_to_remove_indices`. -/
structure ProcResult where
  peds : List Pedestrian
  scoreDelta : Int
  livesDelta : Int
  removeIdxs : List Nat

/-- The whole pedestrian loop, starting at list index `i`. -/
def process_pedestrians (pr pc : Int) : Nat → List Pedestrian → ProcResult
  | _, [] => { peds := [], scoreDelta := 0, livesDelta := 0, removeIdxs := [] }
  | i, p :: ps =>
      let r := step_ped pr pc p
      let rest := process_pedestrians pr pc (i + 1) ps
      { peds := r.ped :: rest.peds
        scoreDelta := r.scoreDelta + rest.scoreDelta
        livesDelta := r.livesDelta + rest.livesDelta
        removeIdxs := (if r.remove then [i] else []) ++ rest.removeIdxs }

/-- `del l[i]` on a Python list. -/
def delIdx {α : Type} (l : List α) (i : Nat) : List α := l.take i ++ l.drop (i + 1)

/-- Insertion step of a descending insertion sort. -/
def insertDesc (i : Nat) : List Nat → List Nat
  | [] => [i]
  | j :: rest => if j ≤ i then i :: j :: rest else j :: insertDesc i rest

/-- Descending insertion sort, modelling `sorted(·, reverse=True)`. -/
def sortDesc : List Nat → List Nat
  | [] => []
  | i :: rest => insertDesc i (sortDesc rest)

/-- `for index in sorted(list(set(idxs)), reverse=True): if 0 <= index <
len(pedestrians): del pedestrians[index]` (the Python set is order-free, so
any duplicate-erasure gives the same sorted result). -/
def remove_marked (peds : List Pedestrian) (idxs : List Nat) : List Pedestrian :=
  (sortDesc idxs.dedup).foldl (fun ps i => if i < ps.length then delIdx ps i else ps) peds

/-- The pedestrian list after the spawn step of a tick: `spawn_timer` has
just been incremented, and on `spawn_timer >= next_spawn_delay` one new
pedestrian is appended before the movement loop runs. -/
def spawn_list (b : Bool) (s : GameState) : List Pedestrian :=
  if s.next_spawn_delay ≤ s.spawn_timer + 1 then s.pedestrians ++ [create_pedestrian b]
  else s.pedestrians

/-- One pass of the game-logic block (`if not game_over:` in the main loop):
spawning, pedestrian movement/collision, removal, and the game-over check.
`b` is the spawned pedestrian's random row choice and `d` the fresh
`random.randint(MIN, MAX)` draw, both used only if a spawn happens. -/
def tick (b : Bool) (d : Nat) (s : GameState) : GameState :=
  if s.game_over then s
  else
    let peds0 := spawn_list b s
    let spawn_timer1 := if s.next_spawn_delay ≤ s.spawn_timer + 1 then 0 else s.spawn_timer + 1
    let next_delay1 := if s.next_spawn_delay ≤ s.spawn_timer + 1 then d else s.next_spawn_delay
    let r := process_pedestrians s.player_row_index s.player_col_index 0 peds0
    let peds1 := remove_marked r.peds r.removeIdxs
    let lives1 := s.lives + r.livesDelta
    { score := s.score + r.scoreDelta
      lives := lives1
      player_row_index := s.player_row_index
      player_col_index := s.player_col_index
      pedestrians := peds1
      game_over := decide (lives1 ≤ 0)
      spawn_timer := spawn_timer1
      next_spawn_delay := next_delay1 }

/-! ### Equation and projection lemmas -/

@[simp]
theorem process_pedestrians_nil (pr pc : Int) (i : Nat) :
    process_pedestrians pr pc i [] = ⟨[], 0, 0, []⟩ := rfl

@[simp]
theorem process_pedestrians_cons (pr pc : Int) (i : Nat) (p : Pedestrian)
    (ps : List Pedestrian) :
    process_pedestrians pr pc i (p :: ps) =
      ⟨(step_ped pr pc p).ped :: (process_pedestrians pr pc (i + 1) ps).peds,
        (step_ped pr pc p).scoreDelta + (process_pedestrians pr pc (i + 1) ps).scoreDelta,
        (step_ped pr pc p).livesDelta + (process_pedestrians pr pc (i + 1) ps).livesDelta,
        (if (step_ped pr pc p).remove then [i] else []) ++
          (process_pedestrians pr pc (i + 1) ps).removeIdxs⟩ := rfl

@[simp]
theorem delIdx_zero_cons {α : Type} (a : α) (t : List α) : delIdx (a :: t) 0 = t := by
  simp [delIdx]

@[simp]
theorem delIdx_succ_cons {α : Type} (a : α) (t : List α) (n : Nat) :
    delIdx (a :: t) (n + 1) = a :: delIdx t n := by
  simp [delIdx]

/-! ### The removal pass deletes exactly the marked indices -/

/-- The elements of `l` whose absolute position (the head of `l` sits at
position `k`) is not listed in `idxs`. -/
def keepNotFrom {α : Type} (idxs : List Nat) : Nat → List α → List α
  | _, [] => []
  | k, a :: as => (if k ∈ idxs then [] else [a]) ++ keepNotFrom idxs (k + 1) as

@[simp]
theorem keepNotFrom_nil_list {α : Type} (idxs : List Nat) (k : Nat) :
    keepNotFrom (α := α) idxs k [] = [] := rfl

@[simp]
theorem keepNotFrom_cons {α : Type} (idxs : List Nat) (k : Nat) (a : α) (as : List α) :
    keepNotFrom idxs k (a :: as) =
      (if k ∈ idxs then [] else [a]) ++ keepNotFrom idxs (k + 1) as := rfl

theorem keepNotFrom_nil {α : Type} : ∀ (k : Nat) (l : List α), keepNotFrom [] k l = l
  | _, [] => rfl
  | k, a :: as => by simp [keepNotFrom_nil (k + 1) as]

theorem keepNotFrom_cons_irrel {α : Type} (i : Nat) (idxs : List Nat) :
    ∀ (l : List α) (m : Nat), i < m →
      keepNotFrom (i :: idxs) m l = keepNotFrom idxs m l
  | [], _, _ => rfl
  | a :: as, m, h => by
      have hmi : m ≠ i := (Nat.ne_of_lt h).symm
      simp only [keepNotFrom_cons, List.mem_cons, hmi, false_or]
      rw [keepNotFrom_cons_irrel i idxs as (m + 1) (Nat.lt_succ_of_lt h)]

theorem delIdx_keepNotFrom {α : Type} (rest : List Nat) (i : Nat)
    (hgt : ∀ j ∈ rest, i < j) :
    ∀ (l : List α) (k : Nat), k ≤ i → i < k + l.length →
      i - k < (keepNotFrom rest k l).length ∧
        delIdx (keepNotFrom rest k l) (i - k) = keepNotFrom (i :: rest) k l
  | [], k, hk, hlt => by
      rw [List.length_nil] at hlt
      omega
  | a :: as, k, hk, hlt => by
      rw [List.length_cons] at hlt
      have hknotin : k ∉ rest := fun hmem => by
        have := hgt k hmem
        omega
      by_cases hki : k = i
      · subst hki
        rw [keepNotFrom_cons rest k a as, if_neg hknotin, List.singleton_append,
          Nat.sub_self]
        refine ⟨by simp, ?_⟩
        rw [delIdx_zero_cons, keepNotFrom_cons (k :: rest) k a as,
          if_pos (List.mem_cons_self k rest), List.nil_append,
          keepNotFrom_cons_irrel k rest as (k + 1) (Nat.lt_succ_self k)]
      · have hklt : k < i := Nat.lt_of_le_of_ne hk hki
        have ih := delIdx_keepNotFrom rest i hgt as (k + 1) hklt (by omega)
        have hsub : i - k = (i - (k + 1)) + 1 := by omega
        have hknotin2 : i ∉ (k :: rest) → True := fun _ => trivial
        have hknotin3 : k ∉ (i :: rest) := by
          intro hm
          rcases List.mem_cons.mp hm with h | h
          · exact hki h
          · have := hgt k h
            omega
        rw [keepNotFrom_cons rest k a as, if_neg hknotin, List.singleton_append,
          keepNotFrom_cons (i :: rest) k a as, if_neg hknotin3, List.singleton_append,
          hsub, delIdx_succ_cons]
        refine ⟨?_, ?_⟩
        · have := ih.1
          rw [List.length_cons]
          omega
        · rw [ih.2]

theorem foldDel_eq_keepNotFrom {α : Type} :
    ∀ (idxs : List Nat) (l : List α), List.Pairwise (· < ·) idxs →
      (∀ j ∈ idxs, j < l.length) →
      idxs.foldr (fun i acc => if i < acc.length then delIdx acc i else acc) l =
        keepNotFrom idxs 0 l
  | [], l, _, _ => (keepNotFrom_nil 0 l).symm
  | i :: rest, l, hp, hb => by
      rw [List.foldr_cons]
      have hp' := List.pairwise_cons.mp hp
      have ih := foldDel_eq_keepNotFrom rest l hp'.2
        (fun j hj => hb j (List.mem_cons_of_mem _ hj))
      rw [ih]
      have hS := delIdx_keepNotFrom rest i hp'.1 l 0 (Nat.zero_le i)
        (by simpa using hb i (List.mem_cons_self i rest))
      rw [if_pos (by simpa using hS.1)]
      simpa using hS.2

theorem foldl_reverse_eq_foldr {α β : Type} (f : β → α → β) :
    ∀ (l : List α) (b : β),
      l.reverse.foldl f b = l.foldr (fun a acc => f acc a) b
  | [], _ => rfl
  | a :: as, b => by
      rw [List.reverse_cons, List.foldl_append, List.foldr_cons,
        foldl_reverse_eq_foldr f as b]
      rfl

theorem insertDesc_allGT (i : Nat) :
    ∀ (m : List Nat), (∀ j ∈ m, i < j) → insertDesc i m = m ++ [i]
  | [], _ => rfl
  | j :: rest, h => by
      have hij : ¬ j ≤ i := by
        have := h j (List.mem_cons_self j rest)
        omega
      simp only [insertDesc, if_neg hij]
      rw [insertDesc_allGT i rest (fun x hx => h x (List.mem_cons_of_mem j hx))]
      rfl

theorem sortDesc_of_pairwise_lt :
    ∀ (l : List Nat), List.Pairwise (· < ·) l → sortDesc l = l.reverse
  | [], _ => rfl
  | i :: rest, hp => by
      have h := List.pairwise_cons.mp hp
      rw [sortDesc, sortDesc_of_pairwise_lt rest h.2,
        insertDesc_allGT i _ (fun j hj => h.1 j (List.mem_reverse.mp hj)),
        List.reverse_cons]

theorem remove_marked_eq_keepNotFrom (peds : List Pedestrian) (idxs : List Nat)
    (hp : List.Pairwise (· < ·) idxs) (hb : ∀ j ∈ idxs, j < peds.length) :
    remove_marked peds idxs = keepNotFrom idxs 0 peds := by
  unfold remove_marked
  rw [List.dedup_eq_self.mpr (hp.imp (fun h => Nat.ne_of_lt h)),
    sortDesc_of_pairwise_lt idxs hp, foldl_reverse_eq_foldr _ idxs peds,
    foldDel_eq_keepNotFrom idxs peds hp hb]

/-! ### Structure of the pedestrian loop -/

theorem process_peds_eq (pr pc : Int) :
    ∀ (i : Nat) (ps : List Pedestrian),
      (process_pedestrians pr pc i ps).peds = ps.map (fun p => (step_ped pr pc p).ped)
  | _, [] => rfl
  | i, p :: ps => by simp [process_peds_eq pr pc (i + 1) ps]

theorem process_scoreDelta_eq (pr pc : Int) :
    ∀ (i : Nat) (ps : List Pedestrian),
      (process_pedestrians pr pc i ps).scoreDelta =
        (ps.map (fun p => (step_ped pr pc p).scoreDelta)).sum
  | _, [] => rfl
  | i, p :: ps => by simp [process_scoreDelta_eq pr pc (i + 1) ps]

theorem process_removeIdxs_bounds (pr pc : Int) :
    ∀ (i : Nat) (ps : List Pedestrian), ∀ j ∈ (process_pedestrians pr pc i ps).removeIdxs,
      i ≤ j ∧ j < i + ps.length
  | _, [] => by intro j hj; simp at hj
  | i, p :: ps => by
      intro j hj
      simp only [process_pedestrians_cons, List.mem_append] at hj
      have ih := process_removeIdxs_bounds pr pc (i + 1) ps
      rcases hj with h1 | h2
      · have hji : j = i := by
          by_cases hr : (step_ped pr pc p).remove
          · simpa [hr] using h1
          · simp [hr] at h1
        simp only [List.length_cons]
        omega
      · have := ih j h2
        simp only [List.length_cons]
        omega

theorem process_removeIdxs_pairwise (pr pc : Int) :
    ∀ (i : Nat) (ps : List Pedestrian),
      List.Pairwise (· < ·) (process_pedestrians pr pc i ps).removeIdxs
  | _, [] => by simp
  | i, p :: ps => by
      have ih := process_removeIdxs_pairwise pr pc (i + 1) ps
      have hb := process_removeIdxs_bounds pr pc (i + 1) ps
      simp only [process_pedestrians_cons]
      by_cases hr : (step_ped pr pc p).remove
      · simp only [hr, if_pos, List.singleton_append, List.pairwise_cons]
        exact ⟨fun j hj => by have := hb j hj; omega, ih⟩
      · simpa [hr] using ih

theorem keepNotFrom_process (pr pc : Int) :
    ∀ (i : Nat) (ps : List Pedestrian),
      keepNotFrom (process_pedestrians pr pc i ps).removeIdxs i
          (process_pedestrians pr pc i ps).peds =
        ((ps.map (step_ped pr pc)).filter (fun r => !r.remove)).map (fun r => r.ped)
  | _, [] => by simp
  | i, p :: ps => by
      have ih := keepNotFrom_process pr pc (i + 1) ps
      have hb := process_removeIdxs_bounds pr pc (i + 1) ps
      have hnotin : i ∉ (process_pedestrians pr pc (i + 1) ps).removeIdxs :=
        fun hmem => by have := hb i hmem; omega
      simp only [process_pedestrians_cons]
      by_cases hr : (step_ped pr pc p).remove = true
      · simp [hr, List.filter_cons]
        rw [keepNotFrom_cons_irrel i _ _ (i + 1) (Nat.lt_succ_self i)]
        exact ih
      · have hfalse : (step_ped pr pc p).remove = false := by simpa using hr
        simp [hfalse, List.filter_cons, if_neg hnotin]
        exact ih

/-- The removal loop over `pedestrians_to_remove_indices` keeps exactly the
pedestrians the movement loop did not mark. -/
theorem remove_after_process (pr pc : Int) (ps : List Pedestrian) :
    remove_marked (process_pedestrians pr pc 0 ps).peds
        (process_pedestrians pr pc 0 ps).removeIdxs =
      ((ps.map (step_ped pr pc)).filter (fun r => !r.remove)).map (fun r => r.ped) := by
  rw [remove_marked_eq_keepNotFrom _ _ (process_removeIdxs_pairwise pr pc 0 ps)
    (fun j hj => by
      have := process_removeIdxs_bounds pr pc 0 ps j hj
      rw [process_peds_eq, List.length_map]
      omega)]
  exact keepNotFrom_process pr pc 0 ps

/-! ### The column loop on the concrete two-column layout -/

@[simp]
theorem half_coll : MANHOLE_COLLISION_WIDTH / 2 = (25 : Int) := by decide

@[simp]
theorem half_pw : PEDESTRIAN_WIDTH / 2 = (10 : Int) := by decide

@[simp]
theorem check_cols_nil (pr pc : Int) (p : Pedestrian) :
    check_cols pr pc [] p = ⟨p, 0, 0, false⟩ := rfl

theorem check_cols_cons (pr pc c mx : Int) (rest : List (Int × Int)) (p : Pedestrian) :
    check_cols pr pc ((c, mx) :: rest) p =
      if mx - MANHOLE_COLLISION_WIDTH / 2 < p.x + PEDESTRIAN_WIDTH / 2 ∧
          p.x + PEDESTRIAN_WIDTH / 2 < mx + MANHOLE_COLLISION_WIDTH / 2 then
        if p.row = pr ∧ c = pc then
          if mx ≤ p.x + PEDESTRIAN_WIDTH / 2 ∧ (p.row, c) ∉ p.scored_at_indices then
            { check_cols pr pc rest
                { p with scored_at_indices := (p.row, c) :: p.scored_at_indices } with
              scoreDelta := (check_cols pr pc rest
                { p with scored_at_indices := (p.row, c) :: p.scored_at_indices }).scoreDelta + 1 }
          else check_cols pr pc rest p
        else ⟨p, 0, -1, true⟩
      else check_cols pr pc rest p := rfl

theorem check_cols_basic (pr pc : Int) :
    ∀ (cols : List (Int × Int)) (p : Pedestrian),
      (check_cols pr pc cols p).ped.row = p.row ∧
        (check_cols pr pc cols p).ped.x = p.x ∧
        (check_cols pr pc cols p).livesDelta =
          (if (check_cols pr pc cols p).fell_in_hole then -1 else 0)
  | [], p => ⟨rfl, rfl, rfl⟩
  | (c, mx) :: rest, p => by
      rw [check_cols_cons]
      by_cases h1 : (mx - MANHOLE_COLLISION_WIDTH / 2 < p.x + PEDESTRIAN_WIDTH / 2 ∧
          p.x + PEDESTRIAN_WIDTH / 2 < mx + MANHOLE_COLLISION_WIDTH / 2)
      · rw [if_pos h1]
        by_cases h2 : (p.row = pr ∧ c = pc)
        · rw [if_pos h2]
          by_cases h3 : (mx ≤ p.x + PEDESTRIAN_WIDTH / 2 ∧
              (p.row, c) ∉ p.scored_at_indices)
          · rw [if_pos h3]
            exact check_cols_basic pr pc rest
              { p with scored_at_indices := (p.row, c) :: p.scored_at_indices }
          · rw [if_neg h3]
            exact check_cols_basic pr pc rest p
        · rw [if_neg h2]
          exact ⟨rfl, rfl, rfl⟩
      · rw [if_neg h1]
        exact check_cols_basic pr pc rest p

/-- Off both collision zones, the column loop is a no-op. -/
theorem check_cols_miss (pr pc : Int) (p : Pedestrian)
    (h0 : ¬ (205 < p.x ∧ p.x < 255)) (h1 : ¬ (525 < p.x ∧ p.x < 575)) :
    check_cols pr pc (enumFrom 0 MANHOLE_CENTERS_X) p = ⟨p, 0, 0, false⟩ := by
  have he : enumFrom 0 MANHOLE_CENTERS_X = [(0, 240), (1, 560)] := rfl
  rw [he, check_cols_cons]
  simp only [half_coll, half_pw]
  rw [if_neg (by omega), check_cols_cons]
  simp only [half_coll, half_pw]
  rw [if_neg (by omega), check_cols_nil]

/-- Inside the collision zone of column `col` (with center abscissa `mx`),
the column loop's outcome is fully determined: an uncovered slot is a fall, a
covered slot credits the pedestrian exactly when the center has reached the
slot center and the slot is still uncredited. -/
theorem check_cols_zone (pr pc : Int) (p : Pedestrian) (col mx : Int)
    (hmem : (col, mx) ∈ enumFrom 0 MANHOLE_CENTERS_X)
    (hzone : mx - MANHOLE_COLLISION_WIDTH / 2 < p.x + PEDESTRIAN_WIDTH / 2 ∧
      p.x + PEDESTRIAN_WIDTH / 2 < mx + MANHOLE_COLLISION_WIDTH / 2) :
    check_cols pr pc (enumFrom 0 MANHOLE_CENTERS_X) p =
      if p.row = pr ∧ col = pc then
        if mx ≤ p.x + PEDESTRIAN_WIDTH / 2 ∧ (p.row, col) ∉ p.scored_at_indices then
          ⟨{ p with scored_at_indices := (p.row, col) :: p.scored_at_indices }, 1, 0, false⟩
        else ⟨p, 0, 0, false⟩
      else ⟨p, 0, -1, true⟩ := by
  have he : enumFrom 0 MANHOLE_CENTERS_X = [(0, 240), (1, 560)] := rfl
  rw [he] at hmem ⊢
  simp only [half_coll, half_pw] at hzone
  simp only [List.mem_cons, List.mem_singleton, Prod.mk.injEq,
    List.not_mem_nil, or_false] at hmem
  rcases hmem with ⟨rfl, rfl⟩ | ⟨rfl, rfl⟩
  · rw [check_cols_cons]
    simp only [half_coll, half_pw]
    rw [if_pos (by omega)]
    by_cases h2 : (p.row = pr ∧ (0 : Int) = pc)
    · rw [if_pos h2, if_pos h2]
      by_cases h3 : ((240 : Int) ≤ p.x + 10 ∧ (p.row, (0 : Int)) ∉ p.scored_at_indices)
      · rw [if_pos h3, if_pos h3, check_cols_cons]
        simp only [half_coll, half_pw]
        rw [if_neg (by omega), check_cols_nil]
        simp
      · rw [if_neg h3, if_neg h3, check_cols_cons]
        simp only [half_coll, half_pw]
        rw [if_neg (by omega), check_cols_nil]
    · rw [if_neg h2, if_neg h2]
  · rw [check_cols_cons]
    simp only [half_coll, half_pw]
    rw [if_neg (by omega), check_cols_cons]
    simp only [half_coll, half_pw]
    rw [if_pos (by omega)]
    by_cases h2 : (p.row = pr ∧ (1 : Int) = pc)
    · rw [if_pos h2, if_pos h2]
      by_cases h3 : ((560 : Int) ≤ p.x + 10 ∧ (p.row, (1 : Int)) ∉ p.scored_at_indices)
      · rw [if_pos h3, if_pos h3, check_cols_nil]
        simp
      · rw [if_neg h3, if_neg h3, check_cols_nil]
    · rw [if_neg h2, if_neg h2]

/-! ### Characterizations of one pedestrian's step -/

theorem step_ped_def (pr pc : Int) (p : Pedestrian) :
    step_ped pr pc p =
      if (check_cols pr pc (enumFrom 0 MANHOLE_CENTERS_X)
            { p with x := moveX p.x }).fell_in_hole = false ∧
          SCREEN_WIDTH <
            (check_cols pr pc (enumFrom 0 MANHOLE_CENTERS_X) { p with x := moveX p.x }).ped.x then
        { ped := (check_cols pr pc (enumFrom 0 MANHOLE_CENTERS_X) { p with x := moveX p.x }).ped,
          scoreDelta :=
            (check_cols pr pc (enumFrom 0 MANHOLE_CENTERS_X)
              { p with x := moveX p.x }).scoreDelta + 5,
          livesDelta :=
            (check_cols pr pc (enumFrom 0 MANHOLE_CENTERS_X) { p with x := moveX p.x }).livesDelta,
          fell_in_hole :=
            (check_cols pr pc (enumFrom 0 MANHOLE_CENTERS_X)
              { p with x := moveX p.x }).fell_in_hole,
          remove := true }
      else
        { ped := (check_cols pr pc (enumFrom 0 MANHOLE_CENTERS_X) { p with x := moveX p.x }).ped,
          scoreDelta :=
            (check_cols pr pc (enumFrom 0 MANHOLE_CENTERS_X) { p with x := moveX p.x }).scoreDelta,
          livesDelta :=
            (check_cols pr pc (enumFrom 0 MANHOLE_CENTERS_X) { p with x := moveX p.x }).livesDelta,
          fell_in_hole :=
            (check_cols pr pc (enumFrom 0 MANHOLE_CENTERS_X)
              { p with x := moveX p.x }).fell_in_hole,
          remove :=
            (check_cols pr pc (enumFrom 0 MANHOLE_CENTERS_X)
              { p with x := moveX p.x }).fell_in_hole } := rfl

theorem step_ped_basic (pr pc : Int) (p : Pedestrian) :
    (step_ped pr pc p).ped.row = p.row ∧ (step_ped pr pc p).ped.x = moveX p.x ∧
      (step_ped pr pc p).livesDelta =
        (if (step_ped pr pc p).fell_in_hole then -1 else 0) := by
  have h := check_cols_basic pr pc (enumFrom 0 MANHOLE_CENTERS_X) { p with x := moveX p.x }
  rw [step_ped_def]
  by_cases hc : ((check_cols pr pc (enumFrom 0 MANHOLE_CENTERS_X)
        { p with x := moveX p.x }).fell_in_hole = false ∧
      SCREEN_WIDTH <
        (check_cols pr pc (enumFrom 0 MANHOLE_CENTERS_X) { p with x := moveX p.x }).ped.x)
  · rw [if_pos hc]
    exact ⟨h.1, h.2.1, h.2.2⟩
  · rw [if_neg hc]
    exact ⟨h.1, h.2.1, h.2.2⟩

/-- A per-tick step of a pedestrian whose post-move center sits inside the
collision zone of column `col`: the outcome is completely determined by
whether the player covers `(row, col)` and whether the slot is already
credited. -/
theorem step_ped_zone (pr pc : Int) (p : Pedestrian) (col mx : Int)
    (hmem : (col, mx) ∈ enumFrom 0 MANHOLE_CENTERS_X)
    (hzone : mx - MANHOLE_COLLISION_WIDTH / 2 < moveX p.x + PEDESTRIAN_WIDTH / 2 ∧
      moveX p.x + PEDESTRIAN_WIDTH / 2 < mx + MANHOLE_COLLISION_WIDTH / 2) :
    step_ped pr pc p =
      if p.row = pr ∧ col = pc then
        if mx ≤ moveX p.x + PEDESTRIAN_WIDTH / 2 ∧ (p.row, col) ∉ p.scored_at_indices then
          ⟨⟨moveX p.x, p.row, (p.row, col) :: p.scored_at_indices⟩, 1, 0, false, false⟩
        else ⟨⟨moveX p.x, p.row, p.scored_at_indices⟩, 0, 0, false, false⟩
      else ⟨⟨moveX p.x, p.row, p.scored_at_indices⟩, 0, -1, true, true⟩ := by
  have hmx : mx = 240 ∨ mx = 560 := by
    have he : enumFrom 0 MANHOLE_CENTERS_X = [(0, 240), (1, 560)] := rfl
    rw [he] at hmem
    simp only [List.mem_cons, List.mem_singleton, Prod.mk.injEq,
      List.not_mem_nil, or_false] at hmem
    rcases hmem with ⟨_, h⟩ | ⟨_, h⟩
    · exact Or.inl h
    · exact Or.inr h
  have hz := check_cols_zone pr pc { p with x := moveX p.x } col mx hmem hzone
  rw [step_ped_def, hz]
  simp only [half_coll, half_pw] at hzone
  have hub : ¬ SCREEN_WIDTH < moveX p.x := by
    simp only [SCREEN_WIDTH]
    rcases hmx with rfl | rfl <;> omega
  by_cases hcov : (({ p with x := moveX p.x } : Pedestrian).row = pr ∧ col = pc)
  · rw [if_pos hcov, if_pos (show p.row = pr ∧ col = pc from hcov)]
    by_cases hsc : (mx ≤ ({ p with x := moveX p.x } : Pedestrian).x + PEDESTRIAN_WIDTH / 2 ∧
        (({ p with x := moveX p.x } : Pedestrian).row, col) ∉
          ({ p with x := moveX p.x } : Pedestrian).scored_at_indices)
    · rw [if_pos hsc,
        if_pos (show mx ≤ moveX p.x + PEDESTRIAN_WIDTH / 2 ∧
          (p.row, col) ∉ p.scored_at_indices from hsc)]
      rw [if_neg (show ¬ ((false : Bool) = false ∧ SCREEN_WIDTH < moveX p.x) from
        fun hcon => absurd hcon.2 hub)]
    · rw [if_neg hsc,
        if_neg (show ¬ (mx ≤ moveX p.x + PEDESTRIAN_WIDTH / 2 ∧
          (p.row, col) ∉ p.scored_at_indices) from hsc)]
      rw [if_neg (show ¬ ((false : Bool) = false ∧ SCREEN_WIDTH < moveX p.x) from
        fun hcon => absurd hcon.2 hub)]
  · rw [if_neg hcov, if_neg (show ¬ (p.row = pr ∧ col = pc) from hcov)]
    rw [if_neg (show ¬ ((true : Bool) = false ∧ SCREEN_WIDTH < moveX p.x) from
      fun hcon => absurd hcon.1 (by decide))]

/-- A per-tick step of a pedestrian whose post-move center is in neither
collision zone: nothing happens except the move and, past the right edge,
the five-point bonus and removal. -/
theorem step_ped_miss (pr pc : Int) (p : Pedestrian)
    (h0 : ¬ (205 < moveX p.x ∧ moveX p.x < 255))
    (h1 : ¬ (525 < moveX p.x ∧ moveX p.x < 575)) :
    step_ped pr pc p =
      if SCREEN_WIDTH < moveX p.x then
        ⟨⟨moveX p.x, p.row, p.scored_at_indices⟩, 5, 0, false, true⟩
      else
        ⟨⟨moveX p.x, p.row, p.scored_at_indices⟩, 0, 0, false, false⟩ := by
  have hm := check_cols_miss pr pc { p with x := moveX p.x } h0 h1
  rw [step_ped_def, hm]
  by_cases hoff : SCREEN_WIDTH < moveX p.x
  · rw [if_pos hoff,
      if_pos (show (false : Bool) = false ∧ SCREEN_WIDTH < moveX p.x from ⟨rfl, hoff⟩)]
    simp
  · rw [if_neg hoff,
      if_neg (show ¬ ((false : Bool) = false ∧ SCREEN_WIDTH < moveX p.x) from by
        simp only [true_and]
        exact hoff)]

/-- A pedestrian that fell this tick did so in exactly one uncovered slot:
its step decrements lives once, contributes no score (in particular not the
off-screen bonus), marks it for removal, and leaves its data otherwise
unchanged. -/
theorem step_ped_fell (pr pc : Int) (p : Pedestrian)
    (hf : (step_ped pr pc p).fell_in_hole = true) :
    step_ped pr pc p = ⟨⟨moveX p.x, p.row, p.scored_at_indices⟩, 0, -1, true, true⟩ := by
  by_cases z0 : (205 < moveX p.x ∧ moveX p.x < 255)
  · have hz := step_ped_zone pr pc p 0 240 (by decide)
      (by simp only [half_coll, half_pw]; omega)
    rw [hz] at hf ⊢
    by_cases hcov : (p.row = pr ∧ (0 : Int) = pc)
    · rw [if_pos hcov] at hf
      by_cases hsc : ((240 : Int) ≤ moveX p.x + PEDESTRIAN_WIDTH / 2 ∧
          (p.row, (0 : Int)) ∉ p.scored_at_indices)
      · rw [if_pos hsc] at hf
        simp at hf
      · rw [if_neg hsc] at hf
        simp at hf
    · rw [if_neg hcov]
  · by_cases z1 : (525 < moveX p.x ∧ moveX p.x < 575)
    · have hz := step_ped_zone pr pc p 1 560 (by decide)
        (by simp only [half_coll, half_pw]; omega)
      rw [hz] at hf ⊢
      by_cases hcov : (p.row = pr ∧ (1 : Int) = pc)
      · rw [if_pos hcov] at hf
        by_cases hsc : ((560 : Int) ≤ moveX p.x + PEDESTRIAN_WIDTH / 2 ∧
            (p.row, (1 : Int)) ∉ p.scored_at_indices)
        · rw [if_pos hsc] at hf
          simp at hf
        · rw [if_neg hsc] at hf
          simp at hf
      · rw [if_neg hcov]
    · have hm := step_ped_miss pr pc p z0 z1
      rw [hm] at hf
      by_cases hoff : SCREEN_WIDTH < moveX p.x
      · rw [if_pos hoff] at hf
        simp at hf
      · rw [if_neg hoff] at hf
        simp at hf

theorem process_livesDelta_eq (pr pc : Int) :
    ∀ (i : Nat) (ps : List Pedestrian),
      (process_pedestrians pr pc i ps).livesDelta =
        -((ps.filter (fun p => (step_ped pr pc p).fell_in_hole)).length : Int)
  | _, [] => by simp
  | i, p :: ps => by
      have ih := process_livesDelta_eq pr pc (i + 1) ps
      simp only [process_pedestrians_cons, List.filter_cons]
      rw [(step_ped_basic pr pc p).2.2, ih]
      by_cases hf : (step_ped pr pc p).fell_in_hole = true
      · rw [if_pos hf, if_pos hf]
        simp only [List.length_cons]
        push_cast
        ring
      · rw [if_neg hf, if_neg hf]
        omega

/-- Closed form of one tick while running: the spawn step yields
`spawn_list`, every pedestrian is stepped, score/lives accumulate the per
pedestrian deltas, exactly the marked pedestrians disappear, and game over
is declared exactly when the resulting lives are `≤ 0`. -/
theorem tick_eq (b : Bool) (d : Nat) (s : GameState) (h : s.game_over = false) :
    tick b d s =
      { score := s.score + ((spawn_list b s).map
          (fun p => (step_ped s.player_row_index s.player_col_index p).scoreDelta)).sum
        lives := s.lives - (((spawn_list b s).filter
          (fun p => (step_ped s.player_row_index s.player_col_index p).fell_in_hole)).length : Int)
        player_row_index := s.player_row_index
        player_col_index := s.player_col_index
        pedestrians := (((spawn_list b s).map
          (step_ped s.player_row_index s.player_col_index)).filter
            (fun r => !r.remove)).map (fun r => r.ped)
        game_over := decide (s.lives - (((spawn_list b s).filter
          (fun p => (step_ped s.player_row_index s.player_col_index p).fell_in_hole)).length : Int) ≤ 0)
        spawn_timer := if s.next_spawn_delay ≤ s.spawn_timer + 1 then 0 else s.spawn_timer + 1
        next_spawn_delay :=
          if s.next_spawn_delay ≤ s.spawn_timer + 1 then d else s.next_spawn_delay } := by
  have hsc := process_scoreDelta_eq s.player_row_index s.player_col_index 0 (spawn_list b s)
  have hlv := process_livesDelta_eq s.player_row_index s.player_col_index 0 (spawn_list b s)
  have hrm := remove_after_process s.player_row_index s.player_col_index (spawn_list b s)
  simp only [tick, h, Bool.false_eq_true, if_false]
  congr 1
  all_goals first
    | rw [hsc]
    | rw [hlv, sub_eq_add_neg]

/-! ### The credited-slot set invariant -/

/-- The invariant on a pedestrian's credited-slot set: no duplicates, and
every entry is one of the two slots on the pedestrian's own row. -/
def CreditedInv (p : Pedestrian) : Prop :=
  p.scored_at_indices.Nodup ∧
    ∀ e ∈ p.scored_at_indices, e = (p.row, 0) ∨ e = (p.row, 1)

/-- A duplicate-free list drawn from the two slots of one row has at most
two entries. -/
theorem two_slot_length (row : Int) :
    ∀ (l : List (Int × Int)), l.Nodup →
      (∀ e ∈ l, e = (row, 0) ∨ e = (row, 1)) → l.length ≤ 2
  | [], _, _ => by simp
  | [_], _, _ => by simp
  | a :: b :: l', hnd, hmem => by
      rcases l' with _ | ⟨c', l''⟩
      · simp
      · exfalso
        have ha := hmem a (by simp)
        have hb := hmem b (by simp)
        have hc := hmem c' (by simp)
        rcases List.nodup_cons.mp hnd with ⟨hna, hnd2⟩
        rcases List.nodup_cons.mp hnd2 with ⟨hnb, _⟩
        have hab : a ≠ b := fun h' => hna (h' ▸ List.mem_cons_self _ _)
        have hac : a ≠ c' := fun h' =>
          hna (h' ▸ List.mem_cons_of_mem _ (List.mem_cons_self _ _))
        have hbc : b ≠ c' := fun h' => hnb (h' ▸ List.mem_cons_self _ _)
        rcases ha with rfl | rfl <;> rcases hb with hb' | hb' <;>
          rcases hc with hc' | hc' <;> simp_all

theorem check_cols_credited (pr pc : Int) :
    ∀ (cols : List (Int × Int)) (p : Pedestrian),
      (∀ cm ∈ cols, cm.1 = 0 ∨ cm.1 = 1) →
      CreditedInv p → CreditedInv (check_cols pr pc cols p).ped
  | [], _, _, hp => hp
  | (c, mx) :: rest, p, hcols, hp => by
      have hc01 : c = 0 ∨ c = 1 := hcols (c, mx) (List.mem_cons_self _ _)
      have hrest : ∀ cm ∈ rest, cm.1 = 0 ∨ cm.1 = 1 :=
        fun cm hm => hcols cm (List.mem_cons_of_mem _ hm)
      rw [check_cols_cons]
      by_cases h1 : (mx - MANHOLE_COLLISION_WIDTH / 2 < p.x + PEDESTRIAN_WIDTH / 2 ∧
          p.x + PEDESTRIAN_WIDTH / 2 < mx + MANHOLE_COLLISION_WIDTH / 2)
      · rw [if_pos h1]
        by_cases h2 : (p.row = pr ∧ c = pc)
        · rw [if_pos h2]
          by_cases h3 : (mx ≤ p.x + PEDESTRIAN_WIDTH / 2 ∧
              (p.row, c) ∉ p.scored_at_indices)
          · rw [if_pos h3]
            refine check_cols_credited pr pc rest
              { p with scored_at_indices := (p.row, c) :: p.scored_at_indices } hrest ?_
            refine ⟨List.nodup_cons.mpr ⟨h3.2, hp.1⟩, ?_⟩
            intro e he
            rcases List.mem_cons.mp he with rfl | hmem
            · rcases hc01 with rfl | rfl
              · exact Or.inl rfl
              · exact Or.inr rfl
            · exact hp.2 e hmem
          · rw [if_neg h3]
            exact check_cols_credited pr pc rest p hrest hp
        · rw [if_neg h2]
          exact hp
      · rw [if_neg h1]
        exact check_cols_credited pr pc rest p hrest hp

theorem step_ped_credited (pr pc : Int) (p : Pedestrian) (hp : CreditedInv p) :
    CreditedInv (step_ped pr pc p).ped := by
  have h := check_cols_credited pr pc (enumFrom 0 MANHOLE_CENTERS_X)
    { p with x := moveX p.x } (by decide) hp
  rw [step_ped_def]
  by_cases hc : ((check_cols pr pc (enumFrom 0 MANHOLE_CENTERS_X)
        { p with x := moveX p.x }).fell_in_hole = false ∧
      SCREEN_WIDTH <
        (check_cols pr pc (enumFrom 0 MANHOLE_CENTERS_X) { p with x := moveX p.x }).ped.x)
  · rw [if_pos hc]
    exact h
  · rw [if_neg hc]
    exact h

/-- While in game over, the game-logic block is skipped entirely. -/
theorem tick_frozen (b : Bool) (d : Nat) (s : GameState) (h : s.game_over = true) :
    tick b d s = s := by
  simp [tick, h]

/-! ### Claims -/

/-- Claim C3: the game follows the two-state machine Running/GameOver: while
game over, a tick leaves the state untouched (no spawning, movement, or
collision processing) and every key except restart is ignored; restart is
exactly `reset_game` and returns to Running; while running, a tick ends in
GameOver exactly when the resulting lives are at most zero, and no key press
can enter GameOver. -/
theorem game_state_machine :
    (∀ (b : Bool) (d : Nat) (s : GameState), s.game_over = true → tick b d s = s) ∧
    (∀ (c : Cmd) (s : GameState), s.game_over = true → (∀ d, c ≠ Cmd.restart d) →
      handle_key c s = s) ∧
    (∀ (d : Nat) (s : GameState), s.game_over = true →
      handle_key (Cmd.restart d) s = reset_game d ∧ (reset_game d).game_over = false) ∧
    (∀ (b : Bool) (d : Nat) (s : GameState), s.game_over = false →
      ((tick b d s).game_over = true ↔ (tick b d s).lives ≤ 0)) ∧
    (∀ (c : Cmd) (s : GameState), s.game_over = false →
      (handle_key c s).game_over = false) := by
  refine ⟨fun b d s h => tick_frozen b d s h, ?_, ?_, ?_, ?_⟩
  · intro c s h hnr
    cases c with
    | restart d => exact absurd rfl (hnr d)
    | moveLeft => simp [handle_key, h]
    | moveRight => simp [handle_key, h]
    | moveUp => simp [handle_key, h]
    | moveDown => simp [handle_key, h]
  · intro d s h
    exact ⟨by simp [handle_key, h], rfl⟩
  · intro b d s h
    rw [tick_eq b d s h]
    simp
  · intro c s h
    cases c <;> simp [handle_key, h]

theorem game_state_machine_witness :
    tick false 5 ⟨7, 0, 1, 1, [], true, 3, 9⟩ = ⟨7, 0, 1, 1, [], true, 3, 9⟩ ∧
    handle_key Cmd.moveLeft ⟨7, 0, 1, 1, [], true, 3, 9⟩ = ⟨7, 0, 1, 1, [], true, 3, 9⟩ ∧
    handle_key (Cmd.restart 5) ⟨7, 0, 1, 1, [], true, 3, 9⟩ = reset_game 5 ∧
    (handle_key Cmd.moveRight ⟨1, 2, 0, 0, [], false, 0, 9⟩).game_over = false :=
  ⟨game_state_machine.1 false 5 _ rfl,
    game_state_machine.2.1 Cmd.moveLeft _ rfl (fun _ h => Cmd.noConfusion h),
    (game_state_machine.2.2.1 5 _ rfl).1,
    game_state_machine.2.2.2.2 Cmd.moveRight _ rfl⟩

/-- Claim C4: restart, accepted only in GameOver, resets score to 0, lives
to 3, the player to slot (0, 0), the pedestrian list to empty, the spawn
timer to 0, reseeds the countdown from the uniform range, and returns to
Running. -/
theorem restart_resets_session (s : GameState) (h : s.game_over = true) (d : Nat)
    (hd : PEDESTRIAN_SPAWN_RATE_MIN ≤ d ∧ d ≤ PEDESTRIAN_SPAWN_RATE_MAX) :
    handle_key (Cmd.restart d) s =
      { score := 0, lives := 3, player_row_index := 0, player_col_index := 0,
        pedestrians := [], game_over := false, spawn_timer := 0, next_spawn_delay := d } ∧
    PEDESTRIAN_SPAWN_RATE_MIN ≤ (handle_key (Cmd.restart d) s).next_spawn_delay ∧
    (handle_key (Cmd.restart d) s).next_spawn_delay ≤ PEDESTRIAN_SPAWN_RATE_MAX := by
  have hk : handle_key (Cmd.restart d) s = reset_game d := by simp [handle_key, h]
  refine ⟨hk, ?_, ?_⟩
  · rw [hk]
    exact hd.1
  · rw [hk]
    exact hd.2

theorem restart_resets_session_witness :
    handle_key (Cmd.restart 250) ⟨5, 0, 1, 1, [⟨100, 0, []⟩], true, 7, 300⟩ =
      ⟨0, 3, 0, 0, [], false, 0, 250⟩ :=
  (restart_resets_session ⟨5, 0, 1, 1, [⟨100, 0, []⟩], true, 7, 300⟩ rfl 250 (by decide)).1

/-- Arithmetic helper: cycling an index of the two-slot lattice by one keeps
it in the lattice. -/
theorem emod_two_cases (v : Int) (h : v = 0 ∨ v = 1) :
    ((v - 1) % 2 = 0 ∨ (v - 1) % 2 = 1) ∧ ((v + 1) % 2 = 0 ∨ (v + 1) % 2 = 1) := by
  rcases h with rfl | rfl
  · exact ⟨Or.inr (by decide), Or.inr (by decide)⟩
  · exact ⟨Or.inl (by decide), Or.inl (by decide)⟩

theorem handle_key_preserves_idx (c : Cmd) (s : GameState)
    (hr : s.player_row_index = 0 ∨ s.player_row_index = 1)
    (hc : s.player_col_index = 0 ∨ s.player_col_index = 1) :
    ((handle_key c s).player_row_index = 0 ∨ (handle_key c s).player_row_index = 1) ∧
      ((handle_key c s).player_col_index = 0 ∨ (handle_key c s).player_col_index = 1) := by
  by_cases h : s.game_over = true
  · cases c with
    | restart d => simp [handle_key, h, reset_game]
    | moveLeft => simpa [handle_key, h] using ⟨hr, hc⟩
    | moveRight => simpa [handle_key, h] using ⟨hr, hc⟩
    | moveUp => simpa [handle_key, h] using ⟨hr, hc⟩
    | moveDown => simpa [handle_key, h] using ⟨hr, hc⟩
  · have h' : s.game_over = false := by simpa using h
    cases c with
    | restart d => simpa [handle_key, h'] using ⟨hr, hc⟩
    | moveLeft =>
        refine ⟨by simpa [handle_key, h'] using hr, ?_⟩
        simpa [handle_key, h'] using (emod_two_cases _ hc).1
    | moveRight =>
        refine ⟨by simpa [handle_key, h'] using hr, ?_⟩
        simpa [handle_key, h'] using (emod_two_cases _ hc).2
    | moveUp =>
        refine ⟨?_, by simpa [handle_key, h'] using hc⟩
        simpa [handle_key, h'] using (emod_two_cases _ hr).1
    | moveDown =>
        refine ⟨?_, by simpa [handle_key, h'] using hc⟩
        simpa [handle_key, h'] using (emod_two_cases _ hr).2

theorem handle_keys_preserves_idx :
    ∀ (cs : List Cmd) (s : GameState),
      (s.player_row_index = 0 ∨ s.player_row_index = 1) →
      (s.player_col_index = 0 ∨ s.player_col_index = 1) →
      ((handle_keys cs s).player_row_index = 0 ∨
          (handle_keys cs s).player_row_index = 1) ∧
        ((handle_keys cs s).player_col_index = 0 ∨
          (handle_keys cs s).player_col_index = 1)
  | [], _, hr, hc => ⟨hr, hc⟩
  | c :: cs, s, hr, hc => by
      have h := handle_key_preserves_idx c s hr hc
      exact handle_keys_preserves_idx cs (handle_key c s) h.1 h.2

/-- Claim C7: while running, left/right cycle the column index by minus or
plus one modulo 2 and up/down the row index likewise (leaving the other
index unchanged), and any sequence of key events keeps both indices inside
the lattice of two rows and two columns. -/
theorem player_moves_wrap_mod_two :
    (∀ s : GameState, s.game_over = false →
      (handle_key Cmd.moveLeft s).player_col_index = (s.player_col_index - 1) % 2 ∧
      (handle_key Cmd.moveRight s).player_col_index = (s.player_col_index + 1) % 2 ∧
      (handle_key Cmd.moveUp s).player_row_index = (s.player_row_index - 1) % 2 ∧
      (handle_key Cmd.moveDown s).player_row_index = (s.player_row_index + 1) % 2 ∧
      (handle_key Cmd.moveLeft s).player_row_index = s.player_row_index ∧
      (handle_key Cmd.moveRight s).player_row_index = s.player_row_index ∧
      (handle_key Cmd.moveUp s).player_col_index = s.player_col_index ∧
      (handle_key Cmd.moveDown s).player_col_index = s.player_col_index) ∧
    (∀ (cs : List Cmd) (s : GameState),
      (s.player_row_index = 0 ∨ s.player_row_index = 1) →
      (s.player_col_index = 0 ∨ s.player_col_index = 1) →
      ((handle_keys cs s).player_row_index = 0 ∨
          (handle_keys cs s).player_row_index = 1) ∧
        ((handle_keys cs s).player_col_index = 0 ∨
          (handle_keys cs s).player_col_index = 1)) := by
  constructor
  · intro s h
    refine ⟨?_, ?_, ?_, ?_, ?_, ?_, ?_, ?_⟩ <;> simp [handle_key, h]
  · exact handle_keys_preserves_idx

theorem player_moves_wrap_mod_two_witness :
    (handle_key Cmd.moveLeft ⟨0, 3, 0, 0, [], false, 0, 9⟩).player_col_index = 1 ∧
      ((handle_keys [Cmd.moveDown, Cmd.moveDown, Cmd.moveLeft]
          ⟨0, 3, 0, 0, [], false, 0, 9⟩).player_row_index = 0 ∨
        (handle_keys [Cmd.moveDown, Cmd.moveDown, Cmd.moveLeft]
          ⟨0, 3, 0, 0, [], false, 0, 9⟩).player_row_index = 1) := by
  constructor
  · have h := (player_moves_wrap_mod_two.1 ⟨0, 3, 0, 0, [], false, 0, 9⟩ rfl).1
    rw [h]
    decide
  · exact (player_moves_wrap_mod_two.2 [Cmd.moveDown, Cmd.moveDown, Cmd.moveLeft]
      ⟨0, 3, 0, 0, [], false, 0, 9⟩ (Or.inl rfl) (Or.inl rfl)).1

/-- Claim C9: no pedestrian is ever removed twice: a fallen pedestrian costs
exactly one life and never also earns the off-screen bonus in the same tick;
the removal-index list is strictly increasing (each index occurs once) and
in bounds; and the removal pass deletes exactly the marked pedestrians. -/
theorem removal_exactly_once :
    (∀ (pr pc : Int) (p : Pedestrian), (step_ped pr pc p).fell_in_hole = true →
      (step_ped pr pc p).livesDelta = -1 ∧ (step_ped pr pc p).scoreDelta = 0 ∧
        (step_ped pr pc p).remove = true) ∧
    (∀ (pr pc : Int) (i : Nat) (ps : List Pedestrian),
      List.Pairwise (· < ·) (process_pedestrians pr pc i ps).removeIdxs ∧
        ∀ j ∈ (process_pedestrians pr pc i ps).removeIdxs, j < i + ps.length) ∧
    (∀ (pr pc : Int) (ps : List Pedestrian),
      remove_marked (process_pedestrians pr pc 0 ps).peds
          (process_pedestrians pr pc 0 ps).removeIdxs =
        ((ps.map (step_ped pr pc)).filter (fun r => !r.remove)).map (fun r => r.ped)) := by
  refine ⟨?_, ?_, fun pr pc ps => remove_after_process pr pc ps⟩
  · intro pr pc p hf
    rw [step_ped_fell pr pc p hf]
    exact ⟨rfl, rfl, rfl⟩
  · intro pr pc i ps
    exact ⟨process_removeIdxs_pairwise pr pc i ps,
      fun j hj => (process_removeIdxs_bounds pr pc i ps j hj).2⟩

theorem removal_exactly_once_witness :
    (step_ped 1 0 ⟨239, 0, []⟩).livesDelta = -1 ∧
      (step_ped 1 0 ⟨239, 0, []⟩).scoreDelta = 0 ∧
      (step_ped 1 0 ⟨239, 0, []⟩).remove = true :=
  removal_exactly_once.1 1 0 ⟨239, 0, []⟩ (by decide)

/-- Claim C10: the game-over check runs once per tick after every pedestrian
is processed: lives drop by exactly the number of pedestrians that fell this
tick (so they can go negative), and the tick ends in GameOver exactly when
the resulting lives are at most 0, not only when they equal 0. -/
theorem game_over_checked_after_all_falls (b : Bool) (d : Nat) (s : GameState)
    (h : s.game_over = false) :
    (tick b d s).lives = s.lives -
      (((spawn_list b s).filter
        (fun p => (step_ped s.player_row_index s.player_col_index p).fell_in_hole)).length : Int) ∧
    ((tick b d s).game_over = true ↔ (tick b d s).lives ≤ 0) := by
  rw [tick_eq b d s h]
  exact ⟨rfl, by simp⟩

theorem game_over_checked_after_all_falls_witness :
    (tick false 300
        ⟨0, 1, 0, 0, [⟨239, 1, []⟩, ⟨545, 0, [(0, 0)]⟩], false, 0, 5⟩).lives = -1 ∧
      (tick false 300
        ⟨0, 1, 0, 0, [⟨239, 1, []⟩, ⟨545, 0, [(0, 0)]⟩], false, 0, 5⟩).game_over = true := by
  have h := game_over_checked_after_all_falls false 300
    ⟨0, 1, 0, 0, [⟨239, 1, []⟩, ⟨545, 0, [(0, 0)]⟩], false, 0, 5⟩ rfl
  refine ⟨by rw [h.1]; decide, h.2.mpr (by rw [h.1]; decide)⟩

/-- Claim C1: a pedestrian whose post-move center is inside the collision
zone of the slot the player occupies (same row and column) and has reached
the slot's exact center scores exactly one point the first time, the slot is
added to its credited set, and it neither falls, loses a life, nor is
removed; a later crossing of an already-credited slot adds no score. -/
theorem covered_pass_scores_once (pr pc : Int) (p : Pedestrian) (col mx : Int)
    (hmem : (col, mx) ∈ enumFrom 0 MANHOLE_CENTERS_X)
    (hzone : mx - MANHOLE_COLLISION_WIDTH / 2 < moveX p.x + PEDESTRIAN_WIDTH / 2 ∧
      moveX p.x + PEDESTRIAN_WIDTH / 2 < mx + MANHOLE_COLLISION_WIDTH / 2)
    (hcov : p.row = pr ∧ col = pc)
    (hpast : mx ≤ moveX p.x + PEDESTRIAN_WIDTH / 2) :
    ((p.row, col) ∉ p.scored_at_indices →
      (step_ped pr pc p).scoreDelta = 1 ∧
        (step_ped pr pc p).ped.scored_at_indices = (p.row, col) :: p.scored_at_indices) ∧
    ((p.row, col) ∈ p.scored_at_indices →
      (step_ped pr pc p).scoreDelta = 0 ∧
        (step_ped pr pc p).ped.scored_at_indices = p.scored_at_indices) ∧
    (step_ped pr pc p).livesDelta = 0 ∧
    (step_ped pr pc p).fell_in_hole = false ∧
    (step_ped pr pc p).remove = false ∧
    (∀ (s : GameState) (b : Bool) (d : Nat), s.game_over = false →
      s.player_row_index = pr → s.player_col_index = pc → s.pedestrians = [p] →
      s.spawn_timer + 1 < s.next_spawn_delay → (p.row, col) ∉ p.scored_at_indices →
      (tick b d s).score = s.score + 1 ∧ (tick b d s).lives = s.lives ∧
        (tick b d s).pedestrians =
          [⟨moveX p.x, p.row, (p.row, col) :: p.scored_at_indices⟩]) := by
  have hz := step_ped_zone pr pc p col mx hmem hzone
  by_cases hfresh : (p.row, col) ∉ p.scored_at_indices
  · have hstep : step_ped pr pc p =
        ⟨⟨moveX p.x, p.row, (p.row, col) :: p.scored_at_indices⟩, 1, 0, false, false⟩ := by
      rw [hz, if_pos hcov, if_pos ⟨hpast, hfresh⟩]
    refine ⟨fun _ => ⟨by rw [hstep], by rw [hstep]⟩, fun hm => absurd hm hfresh,
      by rw [hstep], by rw [hstep], by rw [hstep], ?_⟩
    intro s b d hgo hrw hcw hps hns _
    rw [tick_eq b d s hgo]
    have hsl : spawn_list b s = [p] := by
      simp only [spawn_list,
        if_neg (by omega : ¬ s.next_spawn_delay ≤ s.spawn_timer + 1)]
      exact hps
    rw [hsl, hrw, hcw]
    refine ⟨?_, ?_, ?_⟩ <;> simp [hstep]
  · have hmem' : (p.row, col) ∈ p.scored_at_indices := not_not.mp hfresh
    have hstep : step_ped pr pc p =
        ⟨⟨moveX p.x, p.row, p.scored_at_indices⟩, 0, 0, false, false⟩ := by
      rw [hz, if_pos hcov, if_neg (fun hcon => hcon.2 hmem')]
    exact ⟨fun hnm => absurd hmem' hnm, fun _ => ⟨by rw [hstep], by rw [hstep]⟩,
      by rw [hstep], by rw [hstep], by rw [hstep],
      fun s b d _ _ _ _ _ hfr => absurd hmem' hfr⟩

theorem covered_pass_scores_once_witness :
    (step_ped 0 0 ⟨239, 0, []⟩).scoreDelta = 1 ∧
      (step_ped 0 0 ⟨239, 0, []⟩).ped.scored_at_indices = [(0, 0)] ∧
      (step_ped 0 0 ⟨239, 0, []⟩).remove = false := by
  have h := covered_pass_scores_once 0 0 ⟨239, 0, []⟩ 0 240 (by decide) (by decide)
    ⟨rfl, rfl⟩ (by decide)
  have h1 := h.1 (by decide)
  exact ⟨h1.1, h1.2, h.2.2.2.2.1⟩

/-- Claim C2: a pedestrian whose post-move center is inside the collision
zone of a slot on its row that the player does not occupy falls: lives drop
by exactly 1, it is marked for removal and removed that same tick, and no
further slot contributes anything (its step yields score delta 0). -/
theorem uncovered_fall_costs_life (pr pc : Int) (p : Pedestrian) (col mx : Int)
    (hmem : (col, mx) ∈ enumFrom 0 MANHOLE_CENTERS_X)
    (hzone : mx - MANHOLE_COLLISION_WIDTH / 2 < moveX p.x + PEDESTRIAN_WIDTH / 2 ∧
      moveX p.x + PEDESTRIAN_WIDTH / 2 < mx + MANHOLE_COLLISION_WIDTH / 2)
    (hunc : ¬ (p.row = pr ∧ col = pc)) :
    (step_ped pr pc p).livesDelta = -1 ∧
    (step_ped pr pc p).fell_in_hole = true ∧
    (step_ped pr pc p).remove = true ∧
    (step_ped pr pc p).scoreDelta = 0 ∧
    (∀ (s : GameState) (b : Bool) (d : Nat), s.game_over = false →
      s.player_row_index = pr → s.player_col_index = pc → s.pedestrians = [p] →
      s.spawn_timer + 1 < s.next_spawn_delay →
      (tick b d s).lives = s.lives - 1 ∧ (tick b d s).pedestrians = []) := by
  have hstep : step_ped pr pc p =
      ⟨⟨moveX p.x, p.row, p.scored_at_indices⟩, 0, -1, true, true⟩ := by
    rw [step_ped_zone pr pc p col mx hmem hzone, if_neg hunc]
  refine ⟨by rw [hstep], by rw [hstep], by rw [hstep], by rw [hstep], ?_⟩
  intro s b d hgo hrw hcw hps hns
  rw [tick_eq b d s hgo]
  have hsl : spawn_list b s = [p] := by
    simp only [spawn_list,
      if_neg (by omega : ¬ s.next_spawn_delay ≤ s.spawn_timer + 1)]
    exact hps
  rw [hsl, hrw, hcw]
  constructor
  · simp [hstep]
  · simp [hstep]

theorem uncovered_fall_costs_life_witness :
    (step_ped 1 0 ⟨239, 0, []⟩).livesDelta = -1 ∧
      (tick false 9 ⟨0, 3, 1, 0, [⟨239, 0, []⟩], false, 0, 5⟩).lives = 2 ∧
      (tick false 9 ⟨0, 3, 1, 0, [⟨239, 0, []⟩], false, 0, 5⟩).pedestrians = [] := by
  have h := uncovered_fall_costs_life 1 0 ⟨239, 0, []⟩ 0 240 (by decide) (by decide)
    (by decide)
  have h5 := h.2.2.2.2 ⟨0, 3, 1, 0, [⟨239, 0, []⟩], false, 0, 5⟩ false 9 rfl rfl rfl rfl
    (by decide)
  exact ⟨h.1, by rw [h5.1]; decide, h5.2⟩

/-- Claim C5: a pedestrian that did not fall this tick and whose leading
edge passed the right boundary earns exactly the flat 5-point bonus and is
removed in that same tick, with lives untouched. -/
theorem offscreen_bonus_five (pr pc : Int) (p : Pedestrian)
    (hoff : SCREEN_WIDTH < moveX p.x)
    (hnof : (step_ped pr pc p).fell_in_hole = false) :
    (step_ped pr pc p).scoreDelta = 5 ∧ (step_ped pr pc p).livesDelta = 0 ∧
    (step_ped pr pc p).remove = true ∧
    (∀ (s : GameState) (b : Bool) (d : Nat), s.game_over = false →
      s.player_row_index = pr → s.player_col_index = pc → s.pedestrians = [p] →
      s.spawn_timer + 1 < s.next_spawn_delay →
      (tick b d s).score = s.score + 5 ∧ (tick b d s).lives = s.lives ∧
        (tick b d s).pedestrians = []) := by
  have hoff' : (800 : Int) < moveX p.x := hoff
  have hstep : step_ped pr pc p =
      ⟨⟨moveX p.x, p.row, p.scored_at_indices⟩, 5, 0, false, true⟩ := by
    rw [step_ped_miss pr pc p (by omega) (by omega), if_pos hoff]
  refine ⟨by rw [hstep], by rw [hstep], by rw [hstep], ?_⟩
  intro s b d hgo hrw hcw hps hns
  rw [tick_eq b d s hgo]
  have hsl : spawn_list b s = [p] := by
    simp only [spawn_list,
      if_neg (by omega : ¬ s.next_spawn_delay ≤ s.spawn_timer + 1)]
    exact hps
  rw [hsl, hrw, hcw]
  refine ⟨?_, ?_, ?_⟩ <;> simp [hstep]

theorem offscreen_bonus_five_witness :
    (step_ped 0 0 ⟨800, 1, []⟩).scoreDelta = 5 ∧
      (tick false 9 ⟨2, 3, 0, 0, [⟨800, 1, []⟩], false, 0, 5⟩).score = 7 ∧
      (tick false 9 ⟨2, 3, 0, 0, [⟨800, 1, []⟩], false, 0, 5⟩).pedestrians = [] := by
  have h := offscreen_bonus_five 0 0 ⟨800, 1, []⟩ (by decide) (by decide)
  have h4 := h.2.2.2 ⟨2, 3, 0, 0, [⟨800, 1, []⟩], false, 0, 5⟩ false 9 rfl rfl rfl rfl
    (by decide)
  exact ⟨h.1, by rw [h4.1]; decide, h4.2.2⟩

/-- Claim C6: a pedestrian's credited-slot set never holds a duplicate slot
and only ever holds the two slots of its own row, hence never exceeds size
2; the invariant holds at creation (empty set), is preserved by each
pedestrian step, and therefore holds after every tick. -/
theorem credited_slots_invariant :
    (∀ b : Bool, CreditedInv (create_pedestrian b)) ∧
    (∀ (pr pc : Int) (p : Pedestrian), CreditedInv p →
      CreditedInv (step_ped pr pc p).ped ∧
        (step_ped pr pc p).ped.scored_at_indices.length ≤ 2) ∧
    (∀ (b : Bool) (d : Nat) (s : GameState), (∀ p ∈ s.pedestrians, CreditedInv p) →
      ∀ p ∈ (tick b d s).pedestrians,
        CreditedInv p ∧ p.scored_at_indices.length ≤ 2) := by
  have hcreate : ∀ b : Bool, CreditedInv (create_pedestrian b) := fun b =>
    ⟨List.nodup_nil, fun e he => absurd he (List.not_mem_nil e)⟩
  refine ⟨hcreate, ?_, ?_⟩
  · intro pr pc p hp
    have h := step_ped_credited pr pc p hp
    exact ⟨h, two_slot_length _ _ h.1 h.2⟩
  · intro b d s hinv p hp
    by_cases hgo : s.game_over = true
    · rw [tick_frozen b d s hgo] at hp
      have h := hinv p hp
      exact ⟨h, two_slot_length _ _ h.1 h.2⟩
    · have hgo' : s.game_over = false := by simpa using hgo
      rw [tick_eq b d s hgo'] at hp
      simp only [List.mem_map, List.mem_filter] at hp
      obtain ⟨r, ⟨⟨q, hq, rfl⟩, -⟩, rfl⟩ := hp
      have hcq : CreditedInv q := by
        have hq2 : q ∈ s.pedestrians ∨ q = create_pedestrian b := by
          by_cases hsp : s.next_spawn_delay ≤ s.spawn_timer + 1
          · simp only [spawn_list, if_pos hsp] at hq
            rcases List.mem_append.mp hq with hmem | hmem
            · exact Or.inl hmem
            · exact Or.inr (List.mem_singleton.mp hmem)
          · simp only [spawn_list, if_neg hsp] at hq
            exact Or.inl hq
        rcases hq2 with hmem | rfl
        · exact hinv q hmem
        · exact hcreate b
      have h := step_ped_credited s.player_row_index s.player_col_index q hcq
      exact ⟨h, two_slot_length _ _ h.1 h.2⟩

theorem credited_slots_invariant_witness :
    CreditedInv (step_ped 0 0 ⟨239, 0, []⟩).ped ∧
      (step_ped 0 0 ⟨239, 0, []⟩).ped.scored_at_indices.length ≤ 2 :=
  credited_slots_invariant.2.1 0 0 ⟨239, 0, []⟩
    ⟨List.nodup_nil, fun e he => absurd he (List.not_mem_nil e)⟩

/-- Claim C8: while running the spawn countdown advances by one each frame;
in exactly the tick where it elapses one pedestrian is appended, created on
a random row of the lattice with an empty credited set and fully off screen
to the left, the timer resets to 0 and the next countdown is the fresh
uniform draw from the inclusive spawn range; in a tick where the countdown
has not elapsed no pedestrian is spawned and the processed list is exactly
the previous one. -/
theorem spawn_on_elapsed_countdown (b : Bool) (d : Nat) (s : GameState)
    (h : s.game_over = false)
    (hd : PEDESTRIAN_SPAWN_RATE_MIN ≤ d ∧ d ≤ PEDESTRIAN_SPAWN_RATE_MAX) :
    (create_pedestrian b).scored_at_indices = [] ∧
    ((create_pedestrian b).row = 0 ∨ (create_pedestrian b).row = 1) ∧
    (create_pedestrian b).x + PEDESTRIAN_WIDTH ≤ 0 ∧
    (s.next_spawn_delay ≤ s.spawn_timer + 1 →
      spawn_list b s = s.pedestrians ++ [create_pedestrian b] ∧
      (tick b d s).spawn_timer = 0 ∧ (tick b d s).next_spawn_delay = d ∧
      PEDESTRIAN_SPAWN_RATE_MIN ≤ (tick b d s).next_spawn_delay ∧
      (tick b d s).next_spawn_delay ≤ PEDESTRIAN_SPAWN_RATE_MAX) ∧
    (s.spawn_timer + 1 < s.next_spawn_delay →
      spawn_list b s = s.pedestrians ∧
      (tick b d s).spawn_timer = s.spawn_timer + 1 ∧
      (tick b d s).next_spawn_delay = s.next_spawn_delay) ∧
    (tick b d s).pedestrians =
      (((spawn_list b s).map (step_ped s.player_row_index s.player_col_index)).filter
        (fun r => !r.remove)).map (fun r => r.ped) := by
  rw [tick_eq b d s h]
  refine ⟨rfl, ?_, ?_, ?_, ?_, rfl⟩
  · cases b
    · exact Or.inl rfl
    · exact Or.inr rfl
  · exact (by decide : ((0 : Int) - PEDESTRIAN_WIDTH) + PEDESTRIAN_WIDTH ≤ 0)
  · intro hsp
    refine ⟨by simp only [spawn_list, if_pos hsp], by simp only [if_pos hsp],
      by simp only [if_pos hsp], ?_, ?_⟩
    · simp only [if_pos hsp]
      exact hd.1
    · simp only [if_pos hsp]
      exact hd.2
  · intro hns
    have hsp : ¬ s.next_spawn_delay ≤ s.spawn_timer + 1 := by omega
    exact ⟨by simp only [spawn_list, if_neg hsp], by simp only [if_neg hsp],
      by simp only [if_neg hsp]⟩

theorem spawn_on_elapsed_countdown_witness :
    (tick true 200 ⟨2, 3, 0, 0, [], false, 4, 5⟩).spawn_timer = 0 ∧
      (tick true 200 ⟨2, 3, 0, 0, [], false, 4, 5⟩).next_spawn_delay = 200 ∧
      (create_pedestrian true).scored_at_indices = [] ∧
      (tick false 200 ⟨2, 3, 0, 0, [], false, 1, 5⟩).spawn_timer = 2 := by
  have h := spawn_on_elapsed_countdown true 200 ⟨2, 3, 0, 0, [], false, 4, 5⟩ rfl (by decide)
  have h4 := h.2.2.2.1 (by decide)
  have h2 := spawn_on_elapsed_countdown false 200 ⟨2, 3, 0, 0, [], false, 1, 5⟩ rfl (by decide)
  have h5 := h2.2.2.2.2.1 (by decide)
  exact ⟨h4.2.1, h4.2.2.1, h.1, h5.2.1⟩

example : ((0 : Int) - 1) % 2 = 1 := by decide
example :
    tick false 10 ⟨0, 3, 1, 0, [⟨239, 0, []⟩], false, 0, 5⟩ =
      ⟨0, 2, 1, 0, [], false, 1, 5⟩ := by decide
example :
    tick false 10 ⟨0, 3, 1, 0, [⟨239, 0, []⟩, ⟨100, 0, []⟩], false, 0, 5⟩ =
      ⟨0, 2, 1, 0, [⟨101, 0, []⟩], false, 1, 5⟩ := by decide
example :
    tick false 10 ⟨0, 3, 0, 0, [⟨239, 0, []⟩], false, 0, 5⟩ =
      ⟨1, 3, 0, 0, [⟨240, 0, [(0, 0)]⟩], false, 1, 5⟩ := by decide
example :
    tick true 7 ⟨0, 1, 1, 0, [⟨239, 0, []⟩], false, 3, 4⟩ =
      ⟨0, 0, 1, 0, [⟨-18, 1, []⟩], true, 0, 7⟩ := by decide
example :
    tick false 10 ⟨0, 3, 0, 0, [⟨800, 1, []⟩], false, 0, 5⟩ =
      ⟨5, 3, 0, 0, [], false, 1, 5⟩ := by decide
example : ((1 : Int) + 1) % 2 = 0 := by decide
example : MANHOLE_COLLISION_WIDTH / 2 = 25 := by decide
example : PEDESTRIAN_WIDTH / 2 = 10 := by decide
example : moveX (-20) = -18 := by decide
example : moveX 239 = 240 := by decide
example : enumFrom 0 MANHOLE_CENTERS_X = [(0, 240), (1, 560)] := rfl
example : (step_ped 0 0 ⟨239, 0, []⟩).scoreDelta = 1 := by decide
example : (step_ped 1 0 ⟨239, 0, []⟩).livesDelta = -1 := by decide
example : (step_ped 0 0 ⟨800, 0, []⟩).scoreDelta = 5 := by decide

end Manhole
